import Mathlib

/-!
# Verification of the note-taking backend's versioning engine

Shallow embedding of `src/controllers/noteController.js` together with the
`Note` / `NoteVersion` data model (`src/models`).  The database is modelled as
explicit state (a list of current note rows and a list of append-only version
rows); every controller handler becomes a pure function from a database state
and its request parameters to a response value paired with the database state
after the request.  Sequelize transactions that roll back are modelled by
returning the input state unchanged; committed transactions return the updated
state.
-/

namespace NoteBackend

/-- A row of the `Notes` table (`src/models`: id, title, content, userId,
version, isDeleted, plus the automatic `updatedAt` timestamp, modelled as a
`Nat`). -/
structure Note where
  id : Nat
  title : String
  content : String
  userId : Nat
  version : Nat
  isDeleted : Bool
  updatedAt : Nat
deriving DecidableEq, Repr

/-- A row of the `NoteVersions` table (`src/models/NoteVersion.js`): noteId,
title, content, version, createdBy, and the optional `revertedFrom` provenance
column.  There is no other metadata column on this table. -/
structure NoteVersion where
  noteId : Nat
  title : String
  content : String
  version : Nat
  createdBy : Nat
  revertedFrom : Option Nat
deriving DecidableEq, Repr

/-- The database state: the `Notes` table and the `NoteVersions` table. -/
structure DB where
  notes : List Note
  versions : List NoteVersion
deriving DecidableEq, Repr

/-- The empty database. -/
def dbEmpty : DB := ⟨[], []⟩

/-- `db.Note.findOne({where: {id, userId, isDeleted: false}})` — the lookup
used by every mutation except hard delete. -/
def findNote (db : DB) (noteId userId : Nat) : Option Note :=
  db.notes.find? (fun n => n.id == noteId && n.userId == userId && !n.isDeleted)

/-- `db.Note.findOne({where: {id, userId}})` — the lookup used by hard delete
(`deleteNote`), which does not filter on `isDeleted`. -/
def findNoteAny (db : DB) (noteId userId : Nat) : Option Note :=
  db.notes.find? (fun n => n.id == noteId && n.userId == userId)

/-- `db.NoteVersion.findOne({where: {noteId, version}})`. -/
def findVersion (db : DB) (noteId version : Nat) : Option NoteVersion :=
  db.versions.find? (fun v => v.noteId == noteId && v.version == version)

/-- The fresh autoincrement primary key handed out by `db.Note.create`. -/
def freshId (db : DB) : Nat :=
  (db.notes.map Note.id).foldr max 0 + 1

/-- `createNote` (noteController.js lines 8–34).  The handler runs **two**
separate `create` calls with **no transaction**: `db.Note.create` commits on
its own, then `db.NoteVersion.create` runs.  The `versionWriteFails` flag
models the second call throwing (e.g. a storage failure): in that case the
handler propagates the error (`none`) but the already-committed `Note` row
remains in the database. -/
def createNoteRun (db : DB) (userId : Nat) (title content : String) (now : Nat)
    (versionWriteFails : Bool) : Option Note × DB :=
  let note : Note :=
    { id := freshId db, title := title, content := content, userId := userId,
      version := 1, isDeleted := false, updatedAt := now }
  let dbAfterNote : DB := { db with notes := db.notes ++ [note] }
  if versionWriteFails then
    (none, dbAfterNote)
  else
    (some note,
      { dbAfterNote with
          versions := dbAfterNote.versions ++
            [⟨note.id, title, content, 1, userId, none⟩] })

/-- `createNote` on the path where both writes succeed. -/
def createNote (db : DB) (userId : Nat) (title content : String) (now : Nat) :
    Note × DB :=
  match createNoteRun db userId title content now false with
  | (some note, db') => (note, db')
  | (none, db') => (⟨0, title, content, userId, 1, false, now⟩, db')

/-- Response of `updateNote`: 404, the 409 conflict payload
`{clientVersion, serverVersion, serverData: {title, content, updatedAt},
lastModifiedBy}`, or 200 with the updated note. -/
inductive UpdateResult where
  | notFound
  | conflict (clientVersion serverVersion : Nat) (serverTitle serverContent : String)
      (serverUpdatedAt : Nat) (lastModifiedBy : Option Nat)
  | ok (note : Note)
deriving DecidableEq, Repr

/-- `updateNote` (noteController.js lines 224–308): find the live note, compare
the client-submitted version against `note.version`; on mismatch roll back and
answer 409 with the current server state and the `createdBy` of the
`NoteVersion` row matching the current version; on match bump the version,
update the row and append one history row in the same transaction. -/
def updateNote (db : DB) (noteId userId clientVersion : Nat)
    (title content : String) (now : Nat) : UpdateResult × DB :=
  match findNote db noteId userId with
  | none => (UpdateResult.notFound, db)
  | some note =>
    if clientVersion ≠ note.version then
      (UpdateResult.conflict clientVersion note.version note.title note.content
        note.updatedAt ((findVersion db noteId note.version).map NoteVersion.createdBy),
       db)
    else
      let newVersion := note.version + 1
      let note' : Note :=
        { note with title := title, content := content, version := newVersion,
                    updatedAt := now }
      (UpdateResult.ok note',
       { notes := db.notes.map (fun n => if n.id == noteId then note' else n),
         versions := db.versions ++ [⟨noteId, title, content, newVersion, userId, none⟩] })

/-- Response of `softDeleteNote`: 404, the version-only 409 payload
`{clientVersion, serverVersion}`, or the 200 acknowledgement. -/
inductive SoftDeleteResult where
  | notFound
  | conflict (clientVersion serverVersion : Nat)
  | ok
deriving DecidableEq, Repr

/-- `softDeleteNote` (noteController.js lines 414–482): same optimistic-lock
check as update; on success set `isDeleted`, bump the version and append a
history row snapshotting the note's title/content at deletion time. -/
def softDeleteNote (db : DB) (noteId userId clientVersion : Nat) (now : Nat) :
    SoftDeleteResult × DB :=
  match findNote db noteId userId with
  | none => (SoftDeleteResult.notFound, db)
  | some note =>
    if clientVersion ≠ note.version then
      (SoftDeleteResult.conflict clientVersion note.version, db)
    else
      let newVersion := note.version + 1
      let note' : Note :=
        { note with isDeleted := true, version := newVersion, updatedAt := now }
      (SoftDeleteResult.ok,
       { notes := db.notes.map (fun n => if n.id == noteId then note' else n),
         versions := db.versions ++
           [⟨noteId, note.title, note.content, newVersion, userId, none⟩] })

/-- Response of `revertToVersion`: 404 for a missing note, 404 for a missing
target version, or 200 with the updated note. -/
inductive RevertResult where
  | noteNotFound
  | versionNotFound
  | ok (note : Note)
deriving DecidableEq, Repr

/-- `revertToVersion` (noteController.js lines 144–219): no client version is
taken; look up the target `NoteVersion` row, and if present write
`version + 1` with the target's title/content, recording `revertedFrom`. -/
def revertToVersion (db : DB) (noteId userId targetVersion : Nat) (now : Nat) :
    RevertResult × DB :=
  match findNote db noteId userId with
  | none => (RevertResult.noteNotFound, db)
  | some note =>
    match findVersion db noteId targetVersion with
    | none => (RevertResult.versionNotFound, db)
    | some versionToRevert =>
      let newVersion := note.version + 1
      let note' : Note :=
        { note with title := versionToRevert.title,
                    content := versionToRevert.content,
                    version := newVersion, updatedAt := now }
      (RevertResult.ok note',
       { notes := db.notes.map (fun n => if n.id == noteId then note' else n),
         versions := db.versions ++
           [⟨noteId, versionToRevert.title, versionToRevert.content, newVersion,
             userId, some targetVersion⟩] })

/-- Response of `resolveConflict`: 404, the second-order 409 payload
`{currentVersion, attemptedResolutionVersion}`, or 200 with the updated note
and the echoed resolution strategy. -/
inductive ResolveResult where
  | notFound
  | conflict (currentVersion attemptedResolutionVersion : Nat)
  | ok (note : Note) (resolutionStrategy : String)
deriving DecidableEq, Repr

/-- `resolveConflict` (noteController.js lines 487–569): re-check that the
note is still at `serverVersion`; on mismatch roll back with the second-order
conflict payload; on match write `serverVersion + 1` with the client-resolved
title/content and append one history row (which carries only noteId, title,
content, version and createdBy — the strategy is only echoed in the
response). -/
def resolveConflict (db : DB) (noteId userId serverVersion : Nat)
    (title content resolutionStrategy : String) (now : Nat) : ResolveResult × DB :=
  match findNote db noteId userId with
  | none => (ResolveResult.notFound, db)
  | some note =>
    if serverVersion ≠ note.version then
      (ResolveResult.conflict note.version serverVersion, db)
    else
      let latestVersion := serverVersion + 1
      let note' : Note :=
        { note with title := title, content := content, version := latestVersion,
                    updatedAt := now }
      (ResolveResult.ok note' resolutionStrategy,
       { notes := db.notes.map (fun n => if n.id == noteId then note' else n),
         versions := db.versions ++
           [⟨noteId, title, content, latestVersion, userId, none⟩] })

/-- Response of the hard `deleteNote`. -/
inductive DeleteResult where
  | notFound
  | ok
deriving DecidableEq, Repr

/-- `deleteNote` (noteController.js lines 363–409): hard delete, no version
check and no `isDeleted` filter; destroys every `NoteVersion` row of the note
and then the note row, in one transaction. -/
def deleteNote (db : DB) (noteId userId : Nat) : DeleteResult × DB :=
  match findNoteAny db noteId userId with
  | none => (DeleteResult.notFound, db)
  | some note =>
    (DeleteResult.ok,
     { notes := db.notes.filter (fun n => !(n.id == note.id)),
       versions := db.versions.filter (fun v => !(v.noteId == noteId)) })

/-- The cache-hit guard of `getNoteById` (noteController.js line 72):
`cachedNote && cachedNote.userId === userId && !cachedNote.isDeleted`. -/
def cacheHit (cached : Option Note) (userId : Nat) : Option Note :=
  match cached with
  | some c => if c.userId == userId && !c.isDeleted then some c else none
  | none => none

/-- `getNoteById` (noteController.js lines 66–93) restricted to one cache key:
`cached` is the entry stored under `note:{noteId}`.  Returns the response body
(`none` models the 404) together with the cache entry afterwards: on a guarded
cache hit the cache is untouched; on fallthrough the database result — queried
with `{id, userId, isDeleted: false}` — is cached when found. -/
def getNoteById (db : DB) (cached : Option Note) (noteId userId : Nat) :
    Option Note × Option Note :=
  match cacheHit cached userId with
  | some c => (some c, cached)
  | none =>
    match findNote db noteId userId with
    | none => (none, cached)
    | some note => (some note, some note)

/-! ## Mutation sequences and the version-history pairing invariant -/

/-- One mutation request against the versioning engine, covering the five
mutations of the optimistic-locking protocol (create, update, soft-delete,
revert, resolve-conflict). -/
inductive Op where
  | create (userId : Nat) (title content : String) (now : Nat)
  | update (noteId userId clientVersion : Nat) (title content : String) (now : Nat)
  | softDelete (noteId userId clientVersion now : Nat)
  | revert (noteId userId targetVersion now : Nat)
  | resolve (noteId userId serverVersion : Nat) (title content resolutionStrategy : String)
      (now : Nat)
deriving DecidableEq, Repr

/-- The database state after a request (rejected requests roll back, so they
leave the state unchanged). -/
def applyOp (db : DB) : Op → DB
  | Op.create u t c now => (createNote db u t c now).2
  | Op.update id u cv t c now => (updateNote db id u cv t c now).2
  | Op.softDelete id u cv now => (softDeleteNote db id u cv now).2
  | Op.revert id u tv now => (revertToVersion db id u tv now).2
  | Op.resolve id u sv t c strat now => (resolveConflict db id u sv t c strat now).2

/-- The database state after a sequence of requests. -/
def runOps (db : DB) (ops : List Op) : DB :=
  ops.foldl applyOp db

/-- Whether a mutation request is accepted (commits) against a given state. -/
def acceptedOp (db : DB) : Op → Bool
  | Op.create _ _ _ _ => true
  | Op.update id u cv _ _ _ =>
    match findNote db id u with
    | some note => cv == note.version
    | none => false
  | Op.softDelete id u cv _ =>
    match findNote db id u with
    | some note => cv == note.version
    | none => false
  | Op.revert id u tv _ =>
    (findNote db id u).isSome && (findVersion db id tv).isSome
  | Op.resolve id u sv _ _ _ _ =>
    match findNote db id u with
    | some note => sv == note.version
    | none => false

/-- The id of the note a mutation request touches (for a create, the fresh id
the database will assign). -/
def opNoteId (db : DB) : Op → Nat
  | Op.create _ _ _ _ => freshId db
  | Op.update id _ _ _ _ _ => id
  | Op.softDelete id _ _ _ => id
  | Op.revert id _ _ _ => id
  | Op.resolve id _ _ _ _ _ _ => id

/-- Number of `NoteVersion` rows a note has. -/
def numVersionRows (db : DB) (noteId : Nat) : Nat :=
  db.versions.countP (fun v => v.noteId == noteId)

/-- Number of `NoteVersion` rows of a note carrying a given version number. -/
def countVersion (db : DB) (noteId k : Nat) : Nat :=
  db.versions.countP (fun v => v.noteId == noteId && v.version == k)

/-- The version numbers present in the history of a note. -/
def versionNumbersFor (db : DB) (noteId : Nat) : List Nat :=
  (db.versions.filter (fun v => v.noteId == noteId)).map NoteVersion.version

/-- The `version` column of the note row with a given id (0 when absent). -/
def noteVersionOf (db : DB) (noteId : Nat) : Nat :=
  match db.notes.find? (fun n => n.id == noteId) with
  | some n => n.version
  | none => 0

/-- The state invariant the versioning engine maintains: note ids are unique,
every history row belongs to a live note, and each note's history carries
exactly one row for every version number in `{1, …, note.version}` and none
outside. -/
structure DBInv (db : DB) : Prop where
  uniqueIds : ∀ a ∈ db.notes, ∀ b ∈ db.notes, a.id = b.id → a = b
  versionOwner : ∀ v ∈ db.versions, ∃ n ∈ db.notes, n.id = v.noteId
  pairing : ∀ n ∈ db.notes, ∀ k,
    countVersion db n.id k = if 1 ≤ k ∧ k ≤ n.version then 1 else 0

/-! ## Basic lemmas about the lookups -/

theorem le_foldr_max (l : List Nat) (x : Nat) (hx : x ∈ l) : x ≤ l.foldr max 0 := by
  induction l with
  | nil => cases hx
  | cons a t ih =>
    rcases List.mem_cons.mp hx with rfl | hmem
    · exact Nat.le_max_left _ _
    · exact Nat.le_trans (ih hmem) (Nat.le_max_right _ _)

theorem freshId_not_mem (db : DB) (n : Note) (hn : n ∈ db.notes) : n.id ≠ freshId db := by
  have hle : n.id ≤ (db.notes.map Note.id).foldr max 0 :=
    le_foldr_max _ _ (List.mem_map.mpr ⟨n, hn, rfl⟩)
  intro h
  rw [h] at hle
  exact Nat.not_succ_le_self _ hle

theorem findNote_spec {db : DB} {noteId userId : Nat} {note : Note}
    (h : findNote db noteId userId = some note) :
    note ∈ db.notes ∧ note.id = noteId ∧ note.userId = userId ∧ note.isDeleted = false := by
  have h' : db.notes.find? (fun n => n.id == noteId && n.userId == userId && !n.isDeleted)
      = some note := h
  have hmem := List.mem_of_find?_eq_some h'
  have hp := List.find?_some h'
  simp only [Bool.and_eq_true, beq_iff_eq, Bool.not_eq_true'] at hp
  exact ⟨hmem, hp.1.1, hp.1.2, hp.2⟩

theorem findVersion_spec {db : DB} {noteId ver : Nat} {v : NoteVersion}
    (h : findVersion db noteId ver = some v) :
    v ∈ db.versions ∧ v.noteId = noteId ∧ v.version = ver := by
  have h' : db.versions.find? (fun w => w.noteId == noteId && w.version == ver) = some v := h
  have hmem := List.mem_of_find?_eq_some h'
  have hp := List.find?_some h'
  simp only [Bool.and_eq_true, beq_iff_eq] at hp
  exact ⟨hmem, hp.1, hp.2⟩

theorem find?_id_of_mem (l : List Note)
    (hu : ∀ a ∈ l, ∀ b ∈ l, a.id = b.id → a = b)
    (note : Note) (hmem : note ∈ l) :
    l.find? (fun n => n.id == note.id) = some note := by
  induction l with
  | nil => cases hmem
  | cons h t ih =>
    by_cases hh : h.id = note.id
    · have hb : (h.id == note.id) = true := beq_iff_eq.mpr hh
      have heq : h = note :=
        hu h (List.mem_cons_self h t) note hmem hh
      simp [List.find?_cons, hb, heq]
    · have hb : (h.id == note.id) = false := beq_eq_false_iff_ne.mpr hh
      simp only [List.find?_cons, hb]
      have hnt : note ∈ t := by
        rcases List.mem_cons.mp hmem with rfl | hmem'
        · exact absurd rfl hh
        · exact hmem'
      exact ih (fun a ha b hb => hu a (List.mem_cons_of_mem _ ha) b (List.mem_cons_of_mem _ hb))
        hnt

/-! ## Branch equations for each handler -/

theorem updateNote_notFound {db : DB} {noteId userId clientVersion : Nat}
    {title content : String} {now : Nat}
    (hfind : findNote db noteId userId = none) :
    updateNote db noteId userId clientVersion title content now
      = (UpdateResult.notFound, db) := by
  unfold updateNote
  rw [hfind]

theorem updateNote_conflict {db : DB} {noteId userId clientVersion : Nat}
    {title content : String} {now : Nat} {note : Note}
    (hfind : findNote db noteId userId = some note)
    (hne : clientVersion ≠ note.version) :
    updateNote db noteId userId clientVersion title content now
      = (UpdateResult.conflict clientVersion note.version note.title note.content
          note.updatedAt ((findVersion db noteId note.version).map NoteVersion.createdBy),
         db) := by
  unfold updateNote
  rw [hfind]
  simp [hne]

theorem updateNote_success {db : DB} {noteId userId clientVersion : Nat}
    {title content : String} {now : Nat} {note : Note}
    (hfind : findNote db noteId userId = some note)
    (heq : clientVersion = note.version) :
    updateNote db noteId userId clientVersion title content now
      = (UpdateResult.ok
           { note with title := title, content := content,
                       version := note.version + 1, updatedAt := now },
         { notes := db.notes.map (fun n =>
             if n.id == noteId then
               { note with title := title, content := content,
                           version := note.version + 1, updatedAt := now }
             else n),
           versions := db.versions ++
             [⟨noteId, title, content, note.version + 1, userId, none⟩] }) := by
  unfold updateNote
  rw [hfind]
  simp [heq]

theorem softDeleteNote_notFound {db : DB} {noteId userId clientVersion now : Nat}
    (hfind : findNote db noteId userId = none) :
    softDeleteNote db noteId userId clientVersion now = (SoftDeleteResult.notFound, db) := by
  unfold softDeleteNote
  rw [hfind]

theorem softDeleteNote_conflict {db : DB} {noteId userId clientVersion now : Nat} {note : Note}
    (hfind : findNote db noteId userId = some note)
    (hne : clientVersion ≠ note.version) :
    softDeleteNote db noteId userId clientVersion now
      = (SoftDeleteResult.conflict clientVersion note.version, db) := by
  unfold softDeleteNote
  rw [hfind]
  simp [hne]

theorem softDeleteNote_success {db : DB} {noteId userId clientVersion now : Nat} {note : Note}
    (hfind : findNote db noteId userId = some note)
    (heq : clientVersion = note.version) :
    softDeleteNote db noteId userId clientVersion now
      = (SoftDeleteResult.ok,
         { notes := db.notes.map (fun n =>
             if n.id == noteId then
               { note with isDeleted := true, version := note.version + 1, updatedAt := now }
             else n),
           versions := db.versions ++
             [⟨noteId, note.title, note.content, note.version + 1, userId, none⟩] }) := by
  unfold softDeleteNote
  rw [hfind]
  simp [heq]

theorem revertToVersion_noteNotFound {db : DB} {noteId userId targetVersion now : Nat}
    (hfind : findNote db noteId userId = none) :
    revertToVersion db noteId userId targetVersion now = (RevertResult.noteNotFound, db) := by
  unfold revertToVersion
  rw [hfind]

theorem revertToVersion_versionNotFound {db : DB} {noteId userId targetVersion now : Nat}
    {note : Note}
    (hfind : findNote db noteId userId = some note)
    (hver : findVersion db noteId targetVersion = none) :
    revertToVersion db noteId userId targetVersion now = (RevertResult.versionNotFound, db) := by
  unfold revertToVersion
  rw [hfind, hver]

theorem revertToVersion_success {db : DB} {noteId userId targetVersion now : Nat}
    {note : Note} {target : NoteVersion}
    (hfind : findNote db noteId userId = some note)
    (hver : findVersion db noteId targetVersion = some target) :
    revertToVersion db noteId userId targetVersion now
      = (RevertResult.ok
           { note with title := target.title, content := target.content,
                       version := note.version + 1, updatedAt := now },
         { notes := db.notes.map (fun n =>
             if n.id == noteId then
               { note with title := target.title, content := target.content,
                           version := note.version + 1, updatedAt := now }
             else n),
           versions := db.versions ++
             [⟨noteId, target.title, target.content, note.version + 1, userId,
               some targetVersion⟩] }) := by
  unfold revertToVersion
  rw [hfind, hver]

theorem resolveConflict_notFound {db : DB} {noteId userId serverVersion : Nat}
    {title content strat : String} {now : Nat}
    (hfind : findNote db noteId userId = none) :
    resolveConflict db noteId userId serverVersion title content strat now
      = (ResolveResult.notFound, db) := by
  unfold resolveConflict
  rw [hfind]

theorem resolveConflict_conflict {db : DB} {noteId userId serverVersion : Nat}
    {title content strat : String} {now : Nat} {note : Note}
    (hfind : findNote db noteId userId = some note)
    (hne : serverVersion ≠ note.version) :
    resolveConflict db noteId userId serverVersion title content strat now
      = (ResolveResult.conflict note.version serverVersion, db) := by
  unfold resolveConflict
  rw [hfind]
  simp [hne]

theorem resolveConflict_success {db : DB} {noteId userId serverVersion : Nat}
    {title content strat : String} {now : Nat} {note : Note}
    (hfind : findNote db noteId userId = some note)
    (heq : serverVersion = note.version) :
    resolveConflict db noteId userId serverVersion title content strat now
      = (ResolveResult.ok
           { note with title := title, content := content,
                       version := serverVersion + 1, updatedAt := now } strat,
         { notes := db.notes.map (fun n =>
             if n.id == noteId then
               { note with title := title, content := content,
                           version := serverVersion + 1, updatedAt := now }
             else n),
           versions := db.versions ++
             [⟨noteId, title, content, serverVersion + 1, userId, none⟩] }) := by
  unfold resolveConflict
  rw [hfind]
  simp [heq]

theorem createNote_eq (db : DB) (userId : Nat) (title content : String) (now : Nat) :
    createNote db userId title content now
      = (⟨freshId db, title, content, userId, 1, false, now⟩,
         ⟨db.notes ++ [⟨freshId db, title, content, userId, 1, false, now⟩],
          db.versions ++ [⟨freshId db, title, content, 1, userId, none⟩]⟩) := rfl

/-! ## Counting lemmas -/

theorem countVersion_append (ns : List Note) (vs : List NoteVersion) (row : NoteVersion)
    (id k : Nat) :
    countVersion ⟨ns, vs ++ [row]⟩ id k
      = countVersion ⟨ns, vs⟩ id k + (if row.noteId = id ∧ row.version = k then 1 else 0) := by
  simp [countVersion, List.countP_append, List.countP_cons]

theorem countVersion_notes_irrel (ns : List Note) (db : DB) (id k : Nat) :
    countVersion ⟨ns, db.versions⟩ id k = countVersion db id k := rfl

theorem numVersionRows_append (ns : List Note) (vs : List NoteVersion) (row : NoteVersion)
    (id : Nat) :
    numVersionRows ⟨ns, vs ++ [row]⟩ id
      = numVersionRows ⟨ns, vs⟩ id + (if row.noteId = id then 1 else 0) := by
  simp [numVersionRows, List.countP_append, List.countP_cons]

theorem numVersionRows_notes_irrel (ns : List Note) (db : DB) (id : Nat) :
    numVersionRows ⟨ns, db.versions⟩ id = numVersionRows db id := rfl

theorem mem_versionNumbersFor {db : DB} {id k : Nat} :
    k ∈ versionNumbersFor db id ↔ 0 < countVersion db id k := by
  simp only [versionNumbersFor, countVersion, List.mem_map, List.mem_filter,
    List.countP_pos_iff, Bool.and_eq_true, beq_iff_eq]
  constructor
  · rintro ⟨v, ⟨hv, hid⟩, hk⟩
    exact ⟨v, hv, hid, hk⟩
  · rintro ⟨v, hv, hid, hk⟩
    exact ⟨v, ⟨hv, hid⟩, hk⟩

theorem replaceFun_id (note' : Note) (tid : Nat) (hid : note'.id = tid) (n : Note) :
    (if n.id == tid then note' else n).id = n.id := by
  by_cases h : n.id = tid
  · simp [h, hid]
  · simp [beq_eq_false_iff_ne.mpr h]

/-! ## Invariant preservation -/

theorem dbInv_bump {db : DB} {note note' : Note} {row : NoteVersion}
    (hinv : DBInv db) (hmem : note ∈ db.notes)
    (hid : note'.id = note.id) (hver : note'.version = note.version + 1)
    (hrowId : row.noteId = note.id) (hrowVer : row.version = note.version + 1) :
    DBInv { notes := db.notes.map (fun n => if n.id == note.id then note' else n),
            versions := db.versions ++ [row] } := by
  constructor
  · intro a ha b hb hab
    rcases List.mem_map.mp ha with ⟨a0, ha0, rfl⟩
    rcases List.mem_map.mp hb with ⟨b0, hb0, rfl⟩
    rw [replaceFun_id note' note.id hid a0, replaceFun_id note' note.id hid b0] at hab
    rw [hinv.uniqueIds a0 ha0 b0 hb0 hab]
  · intro v hv
    rcases List.mem_append.mp hv with hv | hv
    · rcases hinv.versionOwner v hv with ⟨n, hn, hnid⟩
      exact ⟨_, List.mem_map.mpr ⟨n, hn, rfl⟩,
        by rw [replaceFun_id note' note.id hid n]; exact hnid⟩
    · have hveq : v = row := by simpa using hv
      subst hveq
      refine ⟨note', List.mem_map.mpr ⟨note, hmem, ?_⟩, by rw [hid, hrowId]⟩
      simp
  · intro n' hn' k
    rcases List.mem_map.mp hn' with ⟨m, hm, rfl⟩
    by_cases hmid : m.id = note.id
    · have hmn : m = note := hinv.uniqueIds m hm note hmem hmid
      subst hmn
      simp only [beq_self_eq_true, if_true]
      rw [hid, hver, countVersion_append, countVersion_notes_irrel,
        hinv.pairing m hm k, hrowId, hrowVer]
      simp only [true_and]
      split_ifs <;> omega
    · rw [if_neg (by simpa using hmid)]
      have hrow : ¬(row.noteId = m.id ∧ row.version = k) := by
        rintro ⟨h1, _⟩
        exact hmid (h1.symm.trans hrowId)
      rw [countVersion_append, countVersion_notes_irrel, hinv.pairing m hm k, if_neg hrow]
      omega

theorem countVersion_fresh_eq_zero {db : DB} (hinv : DBInv db) (k : Nat) :
    countVersion db (freshId db) k = 0 := by
  refine List.countP_eq_zero.mpr ?_
  intro v hv hp
  simp only [Bool.and_eq_true, beq_iff_eq] at hp
  rcases hinv.versionOwner v hv with ⟨n, hn, hnid⟩
  exact freshId_not_mem db n hn (hnid.trans hp.1)

theorem dbInv_create (db : DB) (userId : Nat) (title content : String) (now : Nat)
    (hinv : DBInv db) :
    DBInv (createNote db userId title content now).2 := by
  rw [createNote_eq]
  constructor
  · intro a ha b hb hab
    rcases List.mem_append.mp ha with ha | ha <;> rcases List.mem_append.mp hb with hb | hb
    · exact hinv.uniqueIds a ha b hb hab
    · have hb' : b = ⟨freshId db, title, content, userId, 1, false, now⟩ := by simpa using hb
      exact absurd (hab.trans (by rw [hb'])) (freshId_not_mem db a ha)
    · have ha' : a = ⟨freshId db, title, content, userId, 1, false, now⟩ := by simpa using ha
      exact absurd (hab.symm.trans (by rw [ha'])) (freshId_not_mem db b hb)
    · have ha' : a = ⟨freshId db, title, content, userId, 1, false, now⟩ := by simpa using ha
      have hb' : b = ⟨freshId db, title, content, userId, 1, false, now⟩ := by simpa using hb
      rw [ha', hb']
  · intro v hv
    rcases List.mem_append.mp hv with hv | hv
    · rcases hinv.versionOwner v hv with ⟨n, hn, hnid⟩
      exact ⟨n, List.mem_append_left _ hn, hnid⟩
    · have hveq : v = ⟨freshId db, title, content, 1, userId, none⟩ := by simpa using hv
      subst hveq
      exact ⟨⟨freshId db, title, content, userId, 1, false, now⟩,
        List.mem_append_right _ (List.mem_singleton.mpr rfl), rfl⟩
  · intro n' hn' k
    rcases List.mem_append.mp hn' with hn' | hn'
    · have hno : ¬((⟨freshId db, title, content, 1, userId, none⟩ : NoteVersion).noteId = n'.id ∧
          (⟨freshId db, title, content, 1, userId, none⟩ : NoteVersion).version = k) := by
        rintro ⟨h1, -⟩
        exact freshId_not_mem db n' hn' h1.symm
      rw [countVersion_append, countVersion_notes_irrel, hinv.pairing n' hn' k, if_neg hno]
      omega
    · have hn'eq : n' = ⟨freshId db, title, content, userId, 1, false, now⟩ := by simpa using hn'
      subst hn'eq
      rw [countVersion_append, countVersion_notes_irrel, countVersion_fresh_eq_zero hinv k]
      simp only [true_and]
      split_ifs <;> omega

theorem dbInv_applyOp (db : DB) (op : Op) (hinv : DBInv db) : DBInv (applyOp db op) := by
  cases op with
  | create u t c now => exact dbInv_create db u t c now hinv
  | update id u cv t c now =>
    show DBInv (updateNote db id u cv t c now).2
    cases hfind : findNote db id u with
    | none => rw [updateNote_notFound hfind]; exact hinv
    | some note =>
      by_cases hcv : cv = note.version
      · rw [updateNote_success hfind hcv]
        obtain ⟨hmem, hnid, -, -⟩ := findNote_spec hfind
        subst hnid
        exact dbInv_bump hinv hmem rfl rfl rfl rfl
      · rw [updateNote_conflict hfind hcv]; exact hinv
  | softDelete id u cv now =>
    show DBInv (softDeleteNote db id u cv now).2
    cases hfind : findNote db id u with
    | none => rw [softDeleteNote_notFound hfind]; exact hinv
    | some note =>
      by_cases hcv : cv = note.version
      · rw [softDeleteNote_success hfind hcv]
        obtain ⟨hmem, hnid, -, -⟩ := findNote_spec hfind
        subst hnid
        exact dbInv_bump hinv hmem rfl rfl rfl rfl
      · rw [softDeleteNote_conflict hfind hcv]; exact hinv
  | revert id u tv now =>
    show DBInv (revertToVersion db id u tv now).2
    cases hfind : findNote db id u with
    | none => rw [revertToVersion_noteNotFound hfind]; exact hinv
    | some note =>
      cases hver : findVersion db id tv with
      | none => rw [revertToVersion_versionNotFound hfind hver]; exact hinv
      | some target =>
        rw [revertToVersion_success hfind hver]
        obtain ⟨hmem, hnid, -, -⟩ := findNote_spec hfind
        subst hnid
        exact dbInv_bump hinv hmem rfl rfl rfl rfl
  | resolve id u sv t c strat now =>
    show DBInv (resolveConflict db id u sv t c strat now).2
    cases hfind : findNote db id u with
    | none => rw [resolveConflict_notFound hfind]; exact hinv
    | some note =>
      by_cases hsv : sv = note.version
      · rw [resolveConflict_success hfind hsv]
        obtain ⟨hmem, hnid, -, -⟩ := findNote_spec hfind
        subst hnid
        subst hsv
        exact dbInv_bump hinv hmem rfl rfl rfl rfl
      · rw [resolveConflict_conflict hfind hsv]; exact hinv

theorem dbInv_runOps (ops : List Op) : ∀ db : DB, DBInv db → DBInv (runOps db ops) := by
  induction ops with
  | nil => intro db h; exact h
  | cons op rest ih =>
    intro db h
    exact ih (applyOp db op) (dbInv_applyOp db op h)

theorem dbInv_empty : DBInv dbEmpty := by
  constructor <;> simp [dbEmpty]

/-! ## Counting facts about accepted mutations -/

theorem find?_append_of_none {α : Type _} (p : α → Bool) (l1 l2 : List α)
    (h : l1.find? p = none) : (l1 ++ l2).find? p = l2.find? p := by
  induction l1 with
  | nil => simp
  | cons a t ih =>
    have hpa : p a = false := by
      cases hc : p a with
      | false => rfl
      | true => simp [List.find?_cons, hc] at h
    simp only [List.find?_cons, hpa] at h
    simp only [List.cons_append, List.find?_cons, hpa]
    exact ih h

theorem uniqueIds_map_replace (l : List Note) (note' : Note) (tid : Nat)
    (hid : note'.id = tid)
    (hu : ∀ a ∈ l, ∀ b ∈ l, a.id = b.id → a = b) :
    ∀ a ∈ l.map (fun n => if n.id == tid then note' else n),
      ∀ b ∈ l.map (fun n => if n.id == tid then note' else n), a.id = b.id → a = b := by
  intro a ha b hb hab
  rcases List.mem_map.mp ha with ⟨a0, ha0, rfl⟩
  rcases List.mem_map.mp hb with ⟨b0, hb0, rfl⟩
  rw [replaceFun_id note' tid hid a0, replaceFun_id note' tid hid b0] at hab
  rw [hu a0 ha0 b0 hb0 hab]

theorem noteVersionOf_eq {db : DB} {note : Note}
    (hu : ∀ a ∈ db.notes, ∀ b ∈ db.notes, a.id = b.id → a = b) (hmem : note ∈ db.notes) :
    noteVersionOf db note.id = note.version := by
  unfold noteVersionOf
  rw [find?_id_of_mem db.notes hu note hmem]

theorem noteVersionOf_replace (db : DB) (note note' : Note) {vs : List NoteVersion}
    (hu : ∀ a ∈ db.notes, ∀ b ∈ db.notes, a.id = b.id → a = b)
    (hmem : note ∈ db.notes) (hid : note'.id = note.id) :
    noteVersionOf
        ⟨db.notes.map (fun n => if n.id == note.id then note' else n), vs⟩ note.id
      = note'.version := by
  have hmem' : note' ∈ db.notes.map (fun n => if n.id == note.id then note' else n) :=
    List.mem_map.mpr ⟨note, hmem, by simp⟩
  have hfind := find?_id_of_mem _ (uniqueIds_map_replace db.notes note' note.id hid hu)
    note' hmem'
  rw [hid] at hfind
  unfold noteVersionOf
  rw [hfind]

theorem noteVersionOf_fresh {db : DB} : noteVersionOf db (freshId db) = 0 := by
  unfold noteVersionOf
  rw [List.find?_eq_none.mpr
    (fun n hn => by simpa using freshId_not_mem db n hn)]

/-- One accepted mutation appends exactly one `NoteVersion` row for the note it
touches and increments that note's stored version by exactly one (a freshly
created note goes from absent, counted as version 0, to version 1). -/
theorem accepted_step (db : DB) (op : Op) (hinv : DBInv db)
    (hacc : acceptedOp db op = true) :
    numVersionRows (applyOp db op) (opNoteId db op)
        = numVersionRows db (opNoteId db op) + 1
    ∧ noteVersionOf (applyOp db op) (opNoteId db op)
        = noteVersionOf db (opNoteId db op) + 1 := by
  cases op with
  | create u t c now =>
    show numVersionRows (createNote db u t c now).2 (freshId db)
          = numVersionRows db (freshId db) + 1
      ∧ noteVersionOf (createNote db u t c now).2 (freshId db)
          = noteVersionOf db (freshId db) + 1
    rw [createNote_eq]
    constructor
    · rw [numVersionRows_append, numVersionRows_notes_irrel, if_pos rfl]
    · rw [noteVersionOf_fresh]
      unfold noteVersionOf
      rw [find?_append_of_none _ db.notes _
        (List.find?_eq_none.mpr (fun n hn => by simpa using freshId_not_mem db n hn))]
      simp [List.find?_cons]
  | update id u cv t c now =>
    cases hfind : findNote db id u with
    | none => simp [acceptedOp, hfind] at hacc
    | some note =>
      simp only [acceptedOp, hfind] at hacc
      have hcv : cv = note.version := by simpa using hacc
      obtain ⟨hmem, hnid, -, -⟩ := findNote_spec hfind
      subst hnid
      show numVersionRows (updateNote db note.id u cv t c now).2 note.id
            = numVersionRows db note.id + 1
        ∧ noteVersionOf (updateNote db note.id u cv t c now).2 note.id
            = noteVersionOf db note.id + 1
      rw [updateNote_success hfind hcv]
      constructor
      · rw [numVersionRows_append, numVersionRows_notes_irrel, if_pos rfl]
      · rw [noteVersionOf_replace db note
            ⟨note.id, t, c, note.userId, note.version + 1, note.isDeleted, now⟩
            hinv.uniqueIds hmem rfl,
          noteVersionOf_eq hinv.uniqueIds hmem]
  | softDelete id u cv now =>
    cases hfind : findNote db id u with
    | none => simp [acceptedOp, hfind] at hacc
    | some note =>
      simp only [acceptedOp, hfind] at hacc
      have hcv : cv = note.version := by simpa using hacc
      obtain ⟨hmem, hnid, -, -⟩ := findNote_spec hfind
      subst hnid
      show numVersionRows (softDeleteNote db note.id u cv now).2 note.id
            = numVersionRows db note.id + 1
        ∧ noteVersionOf (softDeleteNote db note.id u cv now).2 note.id
            = noteVersionOf db note.id + 1
      rw [softDeleteNote_success hfind hcv]
      constructor
      · rw [numVersionRows_append, numVersionRows_notes_irrel, if_pos rfl]
      · rw [noteVersionOf_replace db note
            ⟨note.id, note.title, note.content, note.userId, note.version + 1, true, now⟩
            hinv.uniqueIds hmem rfl,
          noteVersionOf_eq hinv.uniqueIds hmem]
  | revert id u tv now =>
    cases hfind : findNote db id u with
    | none => simp [acceptedOp, hfind] at hacc
    | some note =>
      cases hver : findVersion db id tv with
      | none => simp [acceptedOp, hfind, hver] at hacc
      | some target =>
        obtain ⟨hmem, hnid, -, -⟩ := findNote_spec hfind
        subst hnid
        show numVersionRows (revertToVersion db note.id u tv now).2 note.id
              = numVersionRows db note.id + 1
          ∧ noteVersionOf (revertToVersion db note.id u tv now).2 note.id
              = noteVersionOf db note.id + 1
        rw [revertToVersion_success hfind hver]
        constructor
        · rw [numVersionRows_append, numVersionRows_notes_irrel, if_pos rfl]
        · rw [noteVersionOf_replace db note
              ⟨note.id, target.title, target.content, note.userId, note.version + 1,
                note.isDeleted, now⟩
              hinv.uniqueIds hmem rfl,
            noteVersionOf_eq hinv.uniqueIds hmem]
  | resolve id u sv t c strat now =>
    cases hfind : findNote db id u with
    | none => simp [acceptedOp, hfind] at hacc
    | some note =>
      simp only [acceptedOp, hfind] at hacc
      have hsv : sv = note.version := by simpa using hacc
      obtain ⟨hmem, hnid, -, -⟩ := findNote_spec hfind
      subst hnid
      show numVersionRows (resolveConflict db note.id u sv t c strat now).2 note.id
            = numVersionRows db note.id + 1
        ∧ noteVersionOf (resolveConflict db note.id u sv t c strat now).2 note.id
            = noteVersionOf db note.id + 1
      rw [resolveConflict_success hfind hsv]
      subst hsv
      constructor
      · rw [numVersionRows_append, numVersionRows_notes_irrel, if_pos rfl]
      · rw [noteVersionOf_replace db note
            ⟨note.id, t, c, note.userId, note.version + 1, note.isDeleted, now⟩
            hinv.uniqueIds hmem rfl,
          noteVersionOf_eq hinv.uniqueIds hmem]

/-! ## Claim theorems -/

/-- Claim C1 — Version-history pairing invariant: after any sequence of
mutation requests starting from the empty database, the set of version numbers
present in the `NoteVersion` rows of every note is exactly
`{1, …, note.version}` with no gaps, and every accepted mutation appends
exactly one new `NoteVersion` row for the note it touches while incrementing
that note's stored version by exactly one (a fresh create going from absent,
counted as 0, to 1). -/
theorem c1_version_history_pairing (ops : List Op) :
    (∀ n ∈ (runOps dbEmpty ops).notes, ∀ k : Nat,
        k ∈ versionNumbersFor (runOps dbEmpty ops) n.id ↔ 1 ≤ k ∧ k ≤ n.version)
    ∧ (∀ op : Op, acceptedOp (runOps dbEmpty ops) op = true →
        numVersionRows (runOps dbEmpty (ops ++ [op])) (opNoteId (runOps dbEmpty ops) op)
            = numVersionRows (runOps dbEmpty ops) (opNoteId (runOps dbEmpty ops) op) + 1
          ∧ noteVersionOf (runOps dbEmpty (ops ++ [op])) (opNoteId (runOps dbEmpty ops) op)
            = noteVersionOf (runOps dbEmpty ops) (opNoteId (runOps dbEmpty ops) op) + 1) := by
  have hinv := dbInv_runOps ops dbEmpty dbInv_empty
  constructor
  · intro n hn k
    rw [mem_versionNumbersFor, hinv.pairing n hn k]
    split_ifs with h
    · simp [h]
    · simp [h]
  · intro op hacc
    have hrun : runOps dbEmpty (ops ++ [op]) = applyOp (runOps dbEmpty ops) op := by
      simp [runOps, List.foldl_append]
    rw [hrun]
    exact accepted_step _ op hinv hacc

/-- A concrete run used to witness C1: a create followed by an accepted
update. -/
def opsW : List Op := [Op.create 7 "a" "x" 0, Op.update 1 7 1 "b" "y" 1]

/-- Witness for C1: the pairing equivalence and the exactly-one-new-row fact,
instantiated on the concrete run `opsW` and a further accepted soft delete. -/
theorem c1_version_history_pairing_witness :
    ((⟨1, "b", "y", 7, 2, false, 1⟩ : Note) ∈ (runOps dbEmpty opsW).notes)
    ∧ (2 ∈ versionNumbersFor (runOps dbEmpty opsW) 1 ↔ 1 ≤ 2 ∧ 2 ≤ 2)
    ∧ acceptedOp (runOps dbEmpty opsW) (Op.softDelete 1 7 2 3) = true
    ∧ numVersionRows (runOps dbEmpty (opsW ++ [Op.softDelete 1 7 2 3])) 1
        = numVersionRows (runOps dbEmpty opsW) 1 + 1 :=
  ⟨by decide,
   (c1_version_history_pairing opsW).1 ⟨1, "b", "y", 7, 2, false, 1⟩ (by decide) 2,
   by decide,
   ((c1_version_history_pairing opsW).2 (Op.softDelete 1 7 2 3) (by decide)).1⟩

/-- Claim C2 — the code is **not** atomic here: `createNote` runs its two
`create` calls without a transaction, so when the `NoteVersion` write fails
after the `Note` write committed, the `Note` row (version 1) stays visible
while no `NoteVersion` row exists — contradicting "if either of the two writes
fails, neither the Note row nor the NoteVersion row is visible afterward". -/
theorem c2_create_not_atomic :
    (createNoteRun dbEmpty 7 "title" "content" 0 true).2.notes
        = [⟨1, "title", "content", 7, 1, false, 0⟩]
    ∧ (createNoteRun dbEmpty 7 "title" "content" 0 true).2.versions = [] :=
  ⟨rfl, rfl⟩

/-- Claim C3 — Update conflict abort and payload: when the submitted version
differs from the stored one, the database is unchanged (no `NoteVersion` row,
`Note` untouched) and the 409 payload carries the caller's version, the server
version, the server title/content/updatedAt, and the `createdBy` of the
`NoteVersion` row whose version equals the current `note.version`. -/
theorem c3_update_conflict_payload (db : DB) (noteId userId clientVersion : Nat)
    (title content : String) (now : Nat) (note : Note) (lastVer : NoteVersion)
    (hfind : findNote db noteId userId = some note)
    (hlast : findVersion db noteId note.version = some lastVer)
    (hne : clientVersion ≠ note.version) :
    updateNote db noteId userId clientVersion title content now
      = (UpdateResult.conflict clientVersion note.version note.title note.content
          note.updatedAt (some lastVer.createdBy), db) := by
  rw [updateNote_conflict hfind hne, hlast]
  rfl

/-- The sample database used by several witnesses: note 1 is owned by user 10,
is at version 5 and was last written by user 20; note 2 (user 10) was
soft-deleted at version 3. -/
def dbW : DB :=
  ⟨[⟨1, "T5", "C5", 10, 5, false, 50⟩, ⟨2, "D", "DC", 10, 3, true, 30⟩],
   [⟨1, "T1", "C1", 1, 10, none⟩, ⟨1, "T2", "C2", 2, 10, none⟩,
    ⟨1, "T3", "C3", 3, 10, none⟩, ⟨1, "T4", "C4", 4, 10, none⟩,
    ⟨1, "T5", "C5", 5, 20, none⟩,
    ⟨2, "D", "DC", 1, 10, none⟩, ⟨2, "D", "DC", 2, 10, none⟩,
    ⟨2, "D", "DC", 3, 10, none⟩]⟩

/-- Witness for C3, matching the spec's example: note at server version 5 last
written by user 20, caller submits expectedVersion 3 and receives the full
conflict payload while the database is unchanged. -/
theorem c3_update_conflict_payload_witness :
    updateNote dbW 1 10 3 "mine" "minec" 60
      = (UpdateResult.conflict 3 5 "T5" "C5" 50 (some 20), dbW) :=
  c3_update_conflict_payload dbW 1 10 3 "mine" "minec" 60
    ⟨1, "T5", "C5", 10, 5, false, 50⟩ ⟨1, "T5", "C5", 5, 20, none⟩
    (by decide) (by decide) (by decide)

/-- Claim C5 — Update success postcondition: when the submitted version equals
the stored one, the note is rewritten with the new title/content at version
`note.version + 1`, exactly one `NoteVersion` row with that version and
`createdBy = caller` is appended, and the updated note is returned. -/
theorem c5_update_success_postcondition (db : DB) (noteId userId clientVersion : Nat)
    (title content : String) (now : Nat) (note : Note)
    (hfind : findNote db noteId userId = some note)
    (heq : clientVersion = note.version) :
    ∃ note' db',
      updateNote db noteId userId clientVersion title content now
          = (UpdateResult.ok note', db')
      ∧ note'.version = note.version + 1
      ∧ note'.title = title ∧ note'.content = content
      ∧ note' ∈ db'.notes
      ∧ db'.versions = db.versions
          ++ [⟨noteId, title, content, note.version + 1, userId, none⟩] := by
  refine ⟨_, _, updateNote_success hfind heq, rfl, rfl, rfl, ?_, rfl⟩
  obtain ⟨hmem, hnid, -, -⟩ := findNote_spec hfind
  exact List.mem_map.mpr ⟨note, hmem, by simp [hnid]⟩

/-- Witness for C5: an accepted update of the sample database. -/
theorem c5_update_success_postcondition_witness :
    ∃ note' db',
      updateNote dbW 1 10 5 "N" "NC" 60 = (UpdateResult.ok note', db')
      ∧ note'.version = (⟨1, "T5", "C5", 10, 5, false, 50⟩ : Note).version + 1
      ∧ note'.title = "N" ∧ note'.content = "NC"
      ∧ note' ∈ db'.notes
      ∧ db'.versions = dbW.versions ++ [⟨1, "N", "NC", 6, 10, none⟩] :=
  c5_update_success_postcondition dbW 1 10 5 "N" "NC" 60
    ⟨1, "T5", "C5", 10, 5, false, 50⟩ (by decide) (by decide)

/-- Claim C6 — Resolve-conflict second-order check: when the note's current
version no longer equals the submitted `serverVersion`, nothing is written and
the 409 payload carries the current version and the attempted resolution
version. -/
theorem c6_resolve_second_order (db : DB) (noteId userId serverVersion : Nat)
    (title content strat : String) (now : Nat) (note : Note)
    (hfind : findNote db noteId userId = some note)
    (hne : serverVersion ≠ note.version) :
    resolveConflict db noteId userId serverVersion title content strat now
      = (ResolveResult.conflict note.version serverVersion, db) :=
  resolveConflict_conflict hfind hne

/-- Witness for C6 on the sample database. -/
theorem c6_resolve_second_order_witness :
    resolveConflict dbW 1 10 3 "m" "mc" "merge" 60
      = (ResolveResult.conflict 5 3, dbW) :=
  c6_resolve_second_order dbW 1 10 3 "m" "mc" "merge" 60
    ⟨1, "T5", "C5", 10, 5, false, 50⟩ (by decide) (by decide)

/-- Claim C7 — Revert semantics and provenance: revert takes no client
expected-version parameter; a missing target version yields NotFound with no
change, and otherwise a new version `currentVersion + 1` is written whose
title/content equal the target snapshot and whose `revertedFrom` is the target
version, with every pre-existing history row left unchanged. -/
theorem c7_revert_semantics (db : DB) (noteId userId targetVersion now : Nat) (note : Note)
    (hfind : findNote db noteId userId = some note) :
    (findVersion db noteId targetVersion = none →
        revertToVersion db noteId userId targetVersion now
          = (RevertResult.versionNotFound, db))
    ∧ (∀ target, findVersion db noteId targetVersion = some target →
        ∃ note' db',
          revertToVersion db noteId userId targetVersion now = (RevertResult.ok note', db')
          ∧ note'.version = note.version + 1
          ∧ note'.title = target.title ∧ note'.content = target.content
          ∧ db'.versions = db.versions
              ++ [⟨noteId, target.title, target.content, note.version + 1, userId,
                   some targetVersion⟩]) := by
  constructor
  · intro hver
    exact revertToVersion_versionNotFound hfind hver
  · intro target hver
    exact ⟨_, _, revertToVersion_success hfind hver, rfl, rfl, rfl, rfl⟩

/-- Witness for C7: reverting sample note 1 (version 5) to target version 1
yields version 6 carrying version 1's snapshot and `revertedFrom = 1`. -/
theorem c7_revert_semantics_witness :
    ∃ note' db',
      revertToVersion dbW 1 10 1 60 = (RevertResult.ok note', db')
      ∧ note'.version = (⟨1, "T5", "C5", 10, 5, false, 50⟩ : Note).version + 1
      ∧ note'.title = (⟨1, "T1", "C1", 1, 10, none⟩ : NoteVersion).title
      ∧ note'.content = (⟨1, "T1", "C1", 1, 10, none⟩ : NoteVersion).content
      ∧ db'.versions = dbW.versions ++ [⟨1, "T1", "C1", 6, 10, some 1⟩] :=
  (c7_revert_semantics dbW 1 10 1 60 ⟨1, "T5", "C5", 10, 5, false, 50⟩ (by decide)).2
    ⟨1, "T1", "C1", 1, 10, none⟩ (by decide)

/-- Claim C8 — Soft-delete contract: a stale submitted version aborts with the
version-only conflict payload and no change; a matching one marks the note
deleted at version `+ 1` and appends a history row preserving the note's
title/content as they were at the moment of deletion. -/
theorem c8_soft_delete_contract (db : DB) (noteId userId clientVersion now : Nat)
    (note : Note)
    (hfind : findNote db noteId userId = some note) :
    (clientVersion ≠ note.version →
        softDeleteNote db noteId userId clientVersion now
          = (SoftDeleteResult.conflict clientVersion note.version, db))
    ∧ (clientVersion = note.version →
        ∃ db',
          softDeleteNote db noteId userId clientVersion now = (SoftDeleteResult.ok, db')
          ∧ (∃ note' ∈ db'.notes, note'.id = note.id ∧ note'.isDeleted = true
              ∧ note'.version = note.version + 1
              ∧ note'.title = note.title ∧ note'.content = note.content)
          ∧ db'.versions = db.versions
              ++ [⟨noteId, note.title, note.content, note.version + 1, userId, none⟩]) := by
  constructor
  · exact fun hne => softDeleteNote_conflict hfind hne
  · intro heq
    refine ⟨_, softDeleteNote_success hfind heq, ?_, rfl⟩
    obtain ⟨hmem, hnid, -, -⟩ := findNote_spec hfind
    exact ⟨⟨note.id, note.title, note.content, note.userId, note.version + 1, true, now⟩,
      List.mem_map.mpr ⟨note, hmem, by simp [hnid]⟩, rfl, rfl, rfl, rfl, rfl⟩

/-- Witness for C8: the stale-version branch on the sample database is the
version-only conflict with no state change. -/
theorem c8_soft_delete_contract_witness :
    softDeleteNote dbW 1 10 2 60 = (SoftDeleteResult.conflict 2 5, dbW) :=
  (c8_soft_delete_contract dbW 1 10 2 60 ⟨1, "T5", "C5", 10, 5, false, 50⟩
    (by decide)).1 (by decide)

/-- Claim C4 fails on the code: the history row written by a successful
`resolveConflict` carries no resolution metadata.  On the sample database the
rows written for strategies "merge" and "client-wins" are identical, and the
new row's only provenance column, `revertedFrom`, is null — so neither the
`resolutionStrategy` nor the resolved-from version is recorded on the history
row. -/
theorem c4_resolve_metadata_counterexample :
    (resolveConflict dbW 1 10 5 "m" "mc" "merge" 60).2
        = (resolveConflict dbW 1 10 5 "m" "mc" "client-wins" 60).2
    ∧ (∀ v ∈ (resolveConflict dbW 1 10 5 "m" "mc" "merge" 60).2.versions,
        v.revertedFrom = none) := by
  decide

/-- Claim C4 (amended) — Resolve-conflict provenance: a successful
`resolveConflict` writes the new history row at version
`serverVersionAtConflict + 1` with `createdBy` equal to the caller, but the
`resolutionStrategy` is only echoed in the response — it is not recorded on
the history row, whose `revertedFrom` column stays null. -/
theorem c4_resolve_history_row (db : DB) (noteId userId serverVersion : Nat)
    (title content strat : String) (now : Nat) (note : Note)
    (hfind : findNote db noteId userId = some note)
    (heq : serverVersion = note.version) :
    ∃ note' db',
      resolveConflict db noteId userId serverVersion title content strat now
          = (ResolveResult.ok note' strat, db')
      ∧ note'.version = serverVersion + 1
      ∧ db'.versions = db.versions
          ++ [⟨noteId, title, content, serverVersion + 1, userId, none⟩] :=
  ⟨_, _, resolveConflict_success hfind heq, rfl, rfl⟩

/-- Witness for the amended C4 on the sample database. -/
theorem c4_resolve_history_row_witness :
    ∃ note' db',
      resolveConflict dbW 1 10 5 "m" "mc" "merge" 60 = (ResolveResult.ok note' "merge", db')
      ∧ note'.version = 5 + 1
      ∧ db'.versions = dbW.versions ++ [⟨1, "m", "mc", 6, 10, none⟩] :=
  c4_resolve_history_row dbW 1 10 5 "m" "mc" "merge" 60
    ⟨1, "T5", "C5", 10, 5, false, 50⟩ (by decide) (by decide)

/-- The committed branch of the hard `deleteNote`. -/
theorem deleteNote_found {db : DB} {noteId userId : Nat} {note : Note}
    (hfind : findNoteAny db noteId userId = some note) :
    deleteNote db noteId userId
      = (DeleteResult.ok,
         ⟨db.notes.filter (fun n => !(n.id == note.id)),
          db.versions.filter (fun v => !(v.noteId == noteId))⟩) := by
  unfold deleteNote
  rw [hfind]

/-- Claim C9 — soft-deleted notes are frozen except for hard delete: with
unique note ids, once a note's `isDeleted` flag is set, update, soft-delete,
revert and resolve-conflict all answer NotFound and leave the database
unchanged (their lookup filters on `isDeleted = false`), while the hard
`deleteNote` still finds the note and removes it entirely. -/
theorem c9_soft_deleted_frozen (db : DB) (note : Note)
    (hu : ∀ a ∈ db.notes, ∀ b ∈ db.notes, a.id = b.id → a = b)
    (hmem : note ∈ db.notes) (hdel : note.isDeleted = true) :
    ∀ userId clientVersion targetVersion : Nat, ∀ title content strat : String, ∀ now : Nat,
      updateNote db note.id userId clientVersion title content now
          = (UpdateResult.notFound, db)
      ∧ softDeleteNote db note.id userId clientVersion now = (SoftDeleteResult.notFound, db)
      ∧ revertToVersion db note.id userId targetVersion now = (RevertResult.noteNotFound, db)
      ∧ resolveConflict db note.id userId clientVersion title content strat now
          = (ResolveResult.notFound, db)
      ∧ (deleteNote db note.id note.userId).1 = DeleteResult.ok
      ∧ (∀ m ∈ (deleteNote db note.id note.userId).2.notes, m.id ≠ note.id) := by
  intro userId clientVersion targetVersion title content strat now
  have hnone : ∀ u : Nat, findNote db note.id u = none := by
    intro u
    refine List.find?_eq_none.mpr ?_
    intro m hm hp
    simp only [Bool.and_eq_true, beq_iff_eq, Bool.not_eq_true'] at hp
    have hmn : m = note := hu m hm note hmem hp.1.1
    rw [hmn, hdel] at hp
    exact absurd hp.2 (by decide)
  have hfound : findNoteAny db note.id note.userId = some note := by
    have hself : (fun n => n.id == note.id && n.userId == note.userId) note = true := by
      simp
    cases hfa : findNoteAny db note.id note.userId with
    | none =>
      exact absurd hself (by
        have hcontra := List.find?_eq_none.mp hfa note hmem
        simp only at hcontra
        exact fun hx => hcontra hx)
    | some m =>
      have hm := List.mem_of_find?_eq_some (hfa :
        db.notes.find? (fun n => n.id == note.id && n.userId == note.userId) = some m)
      have hp := List.find?_some (hfa :
        db.notes.find? (fun n => n.id == note.id && n.userId == note.userId) = some m)
      simp only [Bool.and_eq_true, beq_iff_eq] at hp
      rw [hu m hm note hmem hp.1]
  refine ⟨updateNote_notFound (hnone userId), softDeleteNote_notFound (hnone userId),
    revertToVersion_noteNotFound (hnone userId), resolveConflict_notFound (hnone userId),
    ?_, ?_⟩
  · rw [deleteNote_found hfound]
  · rw [deleteNote_found hfound]
    intro m hm
    have := (List.mem_filter.mp hm).2
    simpa using this

/-- Witness for C9: the soft-deleted sample note 2 rejects an update with
NotFound and is still removable by hard delete. -/
theorem c9_soft_deleted_frozen_witness :
    updateNote dbW 2 10 3 "t" "c" 60 = (UpdateResult.notFound, dbW)
    ∧ (deleteNote dbW 2 10).1 = DeleteResult.ok :=
  have h := c9_soft_deleted_frozen dbW ⟨2, "D", "DC", 10, 3, true, 30⟩
    (by decide) (by decide) (by decide) 10 3 1 "t" "c" "merge" 60
  ⟨h.1, h.2.2.2.2.1⟩

/-- Fallthrough behaviour of `getNoteById`: whenever the cache-hit guard
fails, the response is exactly the `isDeleted = false`, owner-scoped database
lookup. -/
theorem getNoteById_fallthrough {db : DB} {cached : Option Note} {noteId u : Nat}
    (h : cacheHit cached u = none) :
    (getNoteById db cached noteId u).1 = findNote db noteId u := by
  unfold getNoteById
  rw [h]
  cases hf : findNote db noteId u with
  | none => rfl
  | some n => rfl

/-- The guard rejects a cached snapshot of another user or a deleted one. -/
theorem cacheHit_none {c : Note} {u : Nat}
    (h : ¬(c.userId = u ∧ c.isDeleted = false)) :
    cacheHit (some c) u = none := by
  unfold cacheHit
  exact if_neg (fun hb => h (by simpa using hb))

/-- A cache entry that is absent or holds a snapshot of another user never
influences the response. -/
theorem getNoteById_foreign {db : DB} {cached : Option Note} {noteId u : Nat}
    (h : ∀ n : Note, cached = some n → n.userId ≠ u) :
    (getNoteById db cached noteId u).1 = findNote db noteId u := by
  cases cached with
  | none => exact getNoteById_fallthrough rfl
  | some c =>
    exact getNoteById_fallthrough (cacheHit_none (fun hc => h c rfl hc.1))

/-- Claim C10 — cache hits cannot leak across users or resurrect deleted
notes: a cached snapshot whose owner differs from the caller or whose
`isDeleted` flag is set is ignored and the request falls through to the
owner-scoped database query; every cache entry a user's read populates is a
database note owned by that user; hence the response one user gets for a note
id is independent of what another user's reads cached. -/
theorem c10_cache_isolation (db : DB) (noteId userId : Nat) :
    (∀ c : Note, ¬(c.userId = userId ∧ c.isDeleted = false) →
        (getNoteById db (some c) noteId userId).1 = findNote db noteId userId)
    ∧ (∀ cached : Option Note, ∀ v : Nat,
        (getNoteById db cached noteId v).2 = cached
        ∨ ∃ n ∈ db.notes, (getNoteById db cached noteId v).2 = some n ∧ n.userId = v)
    ∧ (∀ c1 c2 : Option Note,
        (∀ n : Note, c1 = some n → n.userId ≠ userId)
        → (∀ n : Note, c2 = some n → n.userId ≠ userId)
        → (getNoteById db c1 noteId userId).1 = (getNoteById db c2 noteId userId).1) := by
  refine ⟨?_, ?_, ?_⟩
  · intro c hc
    exact getNoteById_fallthrough (cacheHit_none hc)
  · intro cached v
    unfold getNoteById
    cases hch : cacheHit cached v with
    | some c => left; rfl
    | none =>
      cases hf : findNote db noteId v with
      | none => left; rfl
      | some n =>
        right
        obtain ⟨hmem, -, hown, -⟩ := findNote_spec hf
        exact ⟨n, hmem, rfl, hown⟩
  · intro c1 c2 h1 h2
    rw [getNoteById_foreign h1, getNoteById_foreign h2]

/-- Witness for C10: a snapshot of note 1 cached under user 99's ownership is
ignored for user 10, matching an uncached read, and the non-interference
equality holds between that poisoned cache and the empty cache. -/
theorem c10_cache_isolation_witness :
    (getNoteById dbW (some ⟨1, "X", "XC", 99, 9, false, 70⟩) 1 10).1 = findNote dbW 1 10
    ∧ (getNoteById dbW (some ⟨1, "X", "XC", 99, 9, false, 70⟩) 1 10).1
        = (getNoteById dbW none 1 10).1 :=
  ⟨(c10_cache_isolation dbW 1 10).1 ⟨1, "X", "XC", 99, 9, false, 70⟩ (by decide),
   (c10_cache_isolation dbW 1 10).2.2 (some ⟨1, "X", "XC", 99, 9, false, 70⟩) none
     (by intro n hn; cases hn; decide) (by intro n hn; cases hn)⟩

end NoteBackend
